import Mathlib

/-!
Shallow embedding of pysen-ls (a language-server adapter around the pysen
lint/format tool) for checking its design specification.

The definitions below are translated from the repository sources:
  * `pysen_ls/diagnostic.py` — position/range model, diff translation,
    diagnostic and quick-fix construction;
  * `pysen_ls/runtime.py` — result cache, report conversion, incremental
    range remapping, action queries;
  * `pysen_ls/workspace.py` — file-runtime registry.

Python machine-level conventions kept in the model:
  * Python `int` is modelled by `Int` (no overflow);
  * `x or default` on optionals treats both `None` and falsy values
    (`0`, `""`) as absent;
  * `str.splitlines` uses Python's universal-newline line boundaries.
-/

namespace PysenLs

/-- LSP position (pygls `Position`): zero-based `line` and `character`,
both Python ints. -/
structure Pos where
  line : Int
  character : Int
deriving DecidableEq, Repr

/-- Strict lexicographic order on positions, as pygls `Position.__lt__`. -/
def posLt (a b : Pos) : Bool :=
  a.line < b.line || (a.line == b.line && a.character < b.character)

/-- Non-strict lexicographic order on positions, as pygls `Position.__le__`. -/
def posLe (a b : Pos) : Bool :=
  a.line < b.line || (a.line == b.line && a.character <= b.character)

/-- Python `max(a, b)` under the pygls position order: returns `b` only
when `a < b`. -/
def posMax (a b : Pos) : Pos := if posLt a b then b else a

/-- Python `min(a, b)` under the pygls position order: returns `b` only
when `b < a`. -/
def posMin (a b : Pos) : Pos := if posLt b a then b else a

/-- LSP range (pygls `Range`): `stop` models the Python attribute `end`,
which is a reserved word in Lean. -/
structure MRange where
  start : Pos
  stop : Pos
deriving DecidableEq, Repr

/-- Function `has_overlap` from `diagnostic.py`:
`max(lhs.start, rhs.start) <= min(lhs.end, rhs.end)`. -/
def has_overlap (lhs rhs : MRange) : Bool :=
  posLe (posMax lhs.start rhs.start) (posMin lhs.stop rhs.stop)

/-! ### Python string helpers (`str.splitlines`) -/

/-- The characters Python `str.splitlines` treats as line boundaries
(`\r\n` is additionally folded into a single boundary by the splitters). -/
def isLineBreak (c : Char) : Bool :=
  c == '\n' || c == '\r' || c == Char.ofNat 0x0b || c == Char.ofNat 0x0c ||
  c == Char.ofNat 0x1c || c == Char.ofNat 0x1d || c == Char.ofNat 0x1e ||
  c == Char.ofNat 0x85 || c == Char.ofNat 0x2028 || c == Char.ofNat 0x2029

/-- Worker for `str.splitlines(keepends=True)`: `acc` holds the current
line read so far, reversed. A trailing line without a terminator is kept;
an empty trailing segment is dropped (Python behaviour). -/
def splitKeepAux : List Char → List Char → List (List Char)
  | [], acc => if acc.isEmpty then [] else [acc.reverse]
  | '\r' :: '\n' :: rest, acc => (acc.reverse ++ ['\r', '\n']) :: splitKeepAux rest []
  | c :: rest, acc =>
    if isLineBreak c then (acc.reverse ++ [c]) :: splitKeepAux rest []
    else splitKeepAux rest (c :: acc)

/-- Worker for `str.splitlines()` (terminators stripped). -/
def splitAux : List Char → List Char → List (List Char)
  | [], acc => if acc.isEmpty then [] else [acc.reverse]
  | '\r' :: '\n' :: rest, acc => acc.reverse :: splitAux rest []
  | c :: rest, acc =>
    if isLineBreak c then acc.reverse :: splitAux rest []
    else splitAux rest (c :: acc)

/-- Python `s.splitlines()`. -/
def pySplitLines (s : String) : List String :=
  (splitAux s.toList []).map fun l => String.mk l

/-- Python `s.splitlines(keepends=True)`. -/
def pySplitLinesKeep (s : String) : List String :=
  (splitKeepAux s.toList []).map fun l => String.mk l

/-- Python `line.startswith(c)` for a one-character needle, on the
character-list view of the line. -/
def startsWithChar (c : Char) (l : List Char) : Bool :=
  match l with
  | [] => false
  | c' :: _ => c' == c

/-! ### `diagnostic.py` -/

/-- Function `_has_deletion` from `diagnostic.py`. The Python body is
`any(line for line in diff.splitlines() if line.startswith("-"))`; the
generator yields the matching lines themselves and every line starting
with `"-"` is a non-empty (truthy) string, so this is equivalent to an
existence check. -/
def has_deletion (diff : String) : Bool :=
  (splitAux diff.toList []).any fun l => startsWithChar '-' l

/-- A pysen `Diagnostic` (the external finding record): optional 1-based
`start_line`/`start_column`/`end_line`, optional `message`, optional
unified-diff text `diff`. -/
structure PysenDiagnostic where
  file_path : String
  start_line : Option Int
  end_line : Option Int
  start_column : Option Int
  message : Option String
  diff : Option String
deriving DecidableEq, Repr

/-- Python `v or d` for an optional int: `None` and `0` are falsy. -/
def pyOrInt (v : Option Int) (d : Int) : Int :=
  match v with
  | some x => if x = 0 then d else x
  | none => d

/-- Python `v or d` for an optional string: `None` and `""` are falsy. -/
def pyOrStr (v : Option String) (d : String) : String :=
  match v with
  | some s => if s = "" then d else s
  | none => d

/-- Function `get_diagnostic_range` from `diagnostic.py`. -/
def get_diagnostic_range (d : PysenDiagnostic) : MRange :=
  let start_line := pyOrInt d.start_line 1
  let start_column := pyOrInt d.start_column 1
  let end_line0 := pyOrInt d.end_line start_line
  let end_line :=
    match d.diff with
    | some diff => if has_deletion diff then end_line0 + 1 else end_line0
    | none => end_line0
  let end_column := if start_line != end_line then 1 else start_column
  ⟨⟨start_line - 1, start_column - 1⟩, ⟨end_line - 1, end_column - 1⟩⟩

/-- pygls `DiagnosticSeverity`. -/
inductive DiagnosticSeverity
  | error
  | warning
  | information
  | hint
deriving DecidableEq, Repr

/-- pygls `Diagnostic` (the fields `create_diagnostic` populates). -/
structure Diagnostic where
  range : MRange
  message : String
  severity : DiagnosticSeverity
  code : Option String
  source : String
deriving DecidableEq, Repr

/-- Function `create_diagnostic` from `diagnostic.py`: the severity is the literal
`DiagnosticSeverity.Error`. -/
def create_diagnostic (d : PysenDiagnostic) (default_message : String)
    (code : Option String) (source : String) : Diagnostic :=
  { range := get_diagnostic_range d
    message := pyOrStr d.message default_message
    severity := .error
    code := code
    source := source }

/-- The line-by-line accumulation loop of `create_text_edit`, on the
character-list view of the diff: for each physical line (terminators
kept), a line starting with `'+'` or `' '` is appended with its first
character removed; the buffers are then joined. -/
def new_text_of (diff : List Char) : List Char :=
  ((splitKeepAux diff []).foldl
    (fun acc l =>
      if startsWithChar '+' l || startsWithChar ' ' l then acc ++ [l.drop 1] else acc)
    []).flatten

/-- The diff-translation rule as the specification words it: split into
physical lines preserving terminators, drop every line starting with
`'-'`, keep every line starting with `'+'` or `' '` with its
one-character marker stripped, in order, and concatenate. -/
def spec_new_text (diff : List Char) : List Char :=
  ((splitKeepAux diff []).filterMap
    (fun l =>
      if startsWithChar '-' l then none
      else if startsWithChar '+' l || startsWithChar ' ' l then some (l.drop 1)
      else none)).flatten

/-- pygls `TextEdit`. -/
structure TextEditM where
  range : MRange
  new_text : String
deriving DecidableEq, Repr

/-- Function `create_text_edit` from `diagnostic.py`. The Python function asserts
`diff is not None`; the assertion failure is modelled as `none`. -/
def create_text_edit (d : PysenDiagnostic) : Option TextEditM :=
  d.diff.map fun diff => ⟨get_diagnostic_range d, String.mk (new_text_of diff.toList)⟩

/-- pygls `TextDocumentEdit` together with its
`OptionalVersionedTextDocumentIdentifier`. -/
structure TextDocumentEditM where
  uri : String
  version : Option Int
  edits : List TextEditM
deriving DecidableEq, Repr

/-- pygls `CodeAction` (the fields `create_code_action` populates);
`edit` models `WorkspaceEdit.document_changes` behind the optional
`edit` attribute. -/
structure CodeActionM where
  title : String
  kind : String
  diagnostics : Option (List Diagnostic)
  edit : Option (List TextDocumentEditM)
deriving DecidableEq, Repr

/-- Function `create_code_action` from `diagnostic.py`. -/
def create_code_action (title uri : String) (version : Option Int)
    (d : PysenDiagnostic) (reference_diagnostics : List Diagnostic) :
    Option CodeActionM :=
  match d.diff with
  | none => none
  | some diff =>
    some { title := title
           kind := "quickfix"
           diagnostics := some reference_diagnostics
           edit := some [⟨uri, version,
             [⟨get_diagnostic_range d, String.mk (new_text_of diff.toList)⟩]⟩] }

/-! ### `runtime.py`: report conversion and the per-command cache -/

/-- A pysen reporter: its tool `name` and the findings it produced. -/
structure ReporterM where
  name : String
  diagnostics : List PysenDiagnostic
deriving Repr

/-- Record `DiagnosticWithUri` from `runtime.py`. -/
structure DiagnosticWithUri where
  uri : String
  diagnostic : Diagnostic
deriving DecidableEq, Repr

/-- Method `Runtime._convert_reports`: for every finding of every reporter, build
the LSP diagnostic (messages and source derived from the reporter name)
and, when the finding has a diff, a quick-fix action referencing exactly
that diagnostic. `get_uri`/`get_version` stand for the Target's
`self.get_uri`/`self.get_version`. -/
def convert_reports (get_uri : String → String) (get_version : String → Option Int)
    (reporters : List ReporterM) : List DiagnosticWithUri × List CodeActionM :=
  reporters.foldl
    (fun st rep =>
      rep.diagnostics.foldl
        (fun st d =>
          let uri := get_uri d.file_path
          let lsp := create_diagnostic d ("Incompatible with " ++ rep.name) none
            (rep.name ++ "(pysen)")
          let ds := st.1 ++ [⟨uri, lsp⟩]
          match create_code_action ("Apply suggestion from " ++ rep.name ++ " (pysen)")
              uri (get_version uri) d [lsp] with
          | some a => (ds, st.2 ++ [a])
          | none => (ds, st.2))
        st)
    ([], [])

/-- Python `dict` assignment `m[k] = v` on an insertion-ordered
association list: replace in place if the key exists, else append. -/
def dictSet (m : List (String × α)) (k : String) (v : α) : List (String × α) :=
  if m.any (fun e => e.1 == k) then
    m.map fun e => if e.1 == k then (k, v) else e
  else m ++ [(k, v)]

/-- Python `dict` lookup `m.get(k)`. -/
def dictGet (m : List (String × α)) (k : String) : Option α :=
  (m.find? fun e => e.1 == k).map fun e => e.2

/-- The two command-keyed dictionaries of a `Runtime`
(`self._diagnostics` and `self._code_actions`). -/
structure RuntimeCache where
  diagnostics : List (String × List DiagnosticWithUri)
  code_actions : List (String × List CodeActionM)
deriving Repr

/-- Method `Runtime._update_diagnostics`, after the external pysen run: convert
the reports and store both freshly computed lists under `command`. -/
def update_diagnostics_cache (st : RuntimeCache) (command : String)
    (get_uri : String → String) (get_version : String → Option Int)
    (reporters : List ReporterM) : RuntimeCache :=
  let fresh := convert_reports get_uri get_version reporters
  { diagnostics := dictSet st.diagnostics command fresh.1
    code_actions := dictSet st.code_actions command fresh.2 }

/-! ### `runtime.py`: the incremental remapper (`update_diagnostics_range`) -/

/-- The quantities `update_diagnostics_range` computes from the edit:
the edited range, `num_updated_lines` (net line delta) and
`num_add_characters_last_line`. -/
structure EditParams where
  updated_range : MRange
  num_updated_lines : Int
  num_add_characters_last_line : Int
deriving DecidableEq, Repr

/-- Lines 203–214 of `runtime.py`: append `"a"` to the replacement text so
a trailing terminator yields a trailing empty segment, split, strip the
sentinel, and derive the line/character deltas. -/
def mkEditParams (updated_range : MRange) (update_text : String) : EditParams :=
  let to_add0 := pySplitLines (update_text ++ "a")
  let to_add := to_add0.dropLast ++ [(to_add0.getLastD "").dropRight 1]
  let num_remove_lines := updated_range.stop.line - updated_range.start.line
  let num_add_lines : Int := (to_add.length : Int) - 1
  { updated_range := updated_range
    num_updated_lines := num_add_lines - num_remove_lines
    num_add_characters_last_line := ((to_add.getLastD "").length : Int) }

/-- The inner closure `update_logic` of `update_diagnostics_range`.
It mutates the given `Range` in place and returns a keep/invalidate flag;
here it returns `(keep, value of the range object after the call)`.
Note the line shift is applied even on the invalidating return inside the
second branch. -/
def update_logic (p : EditParams) (r : MRange) : Bool × MRange :=
  if posLt r.stop p.updated_range.start then (true, r)
  else if r.start.line ≥ p.updated_range.stop.line then
    let r1 : MRange :=
      ⟨⟨r.start.line + p.num_updated_lines, r.start.character⟩,
       ⟨r.stop.line + p.num_updated_lines, r.stop.character⟩⟩
    if r1.start.line = p.updated_range.stop.line then
      if r1.start.character ≤ p.updated_range.stop.character then (false, r1)
      else (true, ⟨⟨r1.start.line, r1.start.character + p.num_add_characters_last_line⟩,
                   r1.stop⟩)
    else (true, r1)
  else (false, r)

/-!
The remapping pass mutates `Range` objects shared between the cached
diagnostics lists and the cached code actions (in `_convert_reports` each
action stores the very `Diagnostic` object that was appended to the
diagnostics list). Sharing is modelled with an explicit store of `Range`
values indexed by ids: every cached `Range` object is one store cell, and
diagnostics/actions reference cells by id.
-/

/-- A cached code action as seen by the remapping pass: `edit` holds, per
`TextDocumentEdit` in `document_changes`, the ids of its edits' ranges
(the program only ever stores `TextDocumentEdit` changes); `diagnostics`
holds the ids of the related diagnostics' ranges. -/
structure HeapAction where
  edit : Option (List (List Nat))
  diagnostics : Option (List Nat)
deriving DecidableEq, Repr

/-- A `FileRuntime`'s cache with the `Range` objects made explicit:
`store` is the heap of `Range` objects; the diagnostics dictionary maps a
command to the range ids of its diagnostics (in a well-formed cache every
id indexes into `store`). -/
structure FileCache where
  store : List MRange
  diagnostics : List (String × List Nat)
  code_actions : List (String × List HeapAction)
deriving Repr

/-- One `keep = keep and update_logic(x.range)` loop over a list of range
ids. Python's `and` short-circuits: once `keep` is `False`, later ranges
are not evaluated, hence not mutated. -/
def processRids (p : EditParams) (st : List MRange × Bool) (rids : List Nat) :
    List MRange × Bool :=
  rids.foldl
    (fun (st : List MRange × Bool) rid =>
      if st.2 then
        let res := update_logic p (st.1.getD rid ⟨⟨0, 0⟩, ⟨0, 0⟩⟩)
        (st.1.set rid res.2, res.1)
      else st)
    st

/-- Processing of one cached action by `update_diagnostics_range`: an
action whose `edit` is `None` is skipped by the loop and then removed by
the final filter; otherwise its edit ranges are processed first, then its
related diagnostics' ranges, under one short-circuiting `keep` flag.
Returns the store and whether the action survives the final filter. -/
def processAction (p : EditParams) (store : List MRange) (a : HeapAction) :
    List MRange × Bool :=
  match a.edit with
  | none => (store, false)
  | some changes =>
    let st := processRids p (store, true) changes.flatten
    match a.diagnostics with
    | none => st
    | some ds => processRids p st ds

/-- One iteration of the action loop of `update_diagnostics_range`: run
`processAction` against the store and keep the action iff it survives. -/
def remapActionsStep (p : EditParams) (st2 : List MRange × List HeapAction)
    (a : HeapAction) : List MRange × List HeapAction :=
  let res := processAction p st2.1 a
  (res.1, if res.2 then st2.2 ++ [a] else st2.2)

/-- One iteration of the per-command loop of `update_diagnostics_range`:
rebuild the command's action list (`self._code_actions[command] = [...]`)
from the surviving actions. -/
def remapCommandStep (p : EditParams)
    (st : List MRange × List (String × List HeapAction))
    (entry : String × List HeapAction) :
    List MRange × List (String × List HeapAction) :=
  let inner := entry.2.foldl (remapActionsStep p) (st.1, [])
  (inner.1, st.2 ++ [(entry.1, inner.2)])

/-- Method `FileRuntime.update_diagnostics_range`, given the already-computed
edit parameters: every command's action list is rebuilt keeping exactly
the surviving actions; the diagnostics dictionary itself is not touched
(only range objects shared with actions are mutated through the store). -/
def update_diagnostics_range (p : EditParams) (cache : FileCache) : FileCache :=
  let folded := cache.code_actions.foldl (remapCommandStep p) (cache.store, [])
  { store := folded.1
    diagnostics := cache.diagnostics
    code_actions := folded.2 }

/-- The range ids a cached action can reach (its edits' ranges and its
related diagnostics' ranges). -/
def actionRids (a : HeapAction) : List Nat :=
  (match a.edit with
   | some changes => changes.flatten
   | none => []) ++
  (match a.diagnostics with
   | some ds => ds
   | none => [])

/-! ### `runtime.py`: code-action queries -/

/-- Method `Runtime.iter_code_actions`: flatten the per-command partitions in
dictionary (insertion) order. -/
def iter_code_actions (cas : List (String × List CodeActionM)) : List CodeActionM :=
  (cas.map fun e => e.2).flatten

/-- Loop body of `FileRuntime.query_code_actions` for a given selection:
actions with no (or an empty) related-diagnostics list are skipped;
otherwise the action is kept iff some related diagnostic's range overlaps
the selection. -/
def queryStep (tr : MRange) (acc : List CodeActionM) (a : CodeActionM) :
    List CodeActionM :=
  match a.diagnostics with
  | none => acc
  | some ds =>
    if ds.isEmpty then acc
    else if ds.any (fun d => has_overlap d.range tr) then acc ++ [a]
    else acc

/-- Method `FileRuntime.query_code_actions`: with no selection (`None`), all
cached actions in iteration order; with a selection, the filtering loop
above. -/
def query_code_actions (cas : List (String × List CodeActionM))
    (target_range : Option MRange) : List CodeActionM :=
  let l := iter_code_actions cas
  match target_range with
  | none => l
  | some tr => l.foldl (queryStep tr) []

/-! ### `workspace.py`: the file-runtime registry -/

/-- The final path component, as `pathlib.PurePath.name` for a normalised
POSIX path (no trailing slash). -/
def path_name (p : List Char) : List Char :=
  p.foldl (fun acc c => if c == '/' then [] else acc ++ [c]) []

/-- Index of the last `'.'` in a name, if any. -/
def lastDotIdx (cs : List Char) : Option Nat :=
  ((cs.enum.filter fun e => e.2 == '.').map fun e => e.1).getLast?

/-- Property `pathlib.PurePath.suffix`: the extension of the final component; a
leading or trailing dot yields the empty suffix. -/
def path_suffix (p : String) : String :=
  let n := path_name p.toList
  match lastDotIdx n with
  | some i => if 0 < i ∧ i < n.length - 1 then String.mk (n.drop i) else ""
  | none => ""

/-- Method `Workspace._should_create_runtime`: `path.suffix in [".py", ".pyc"]`. -/
def should_create_runtime (path : String) : Bool :=
  path_suffix path == ".py" || path_suffix path == ".pyc"

/-- A created `FileRuntime`, identified by its uri and resolved path. -/
structure FileRuntimeM where
  uri : String
  path : String
deriving DecidableEq, Repr

/-- The failures `FileRuntime(...)` construction can raise. -/
inductive CreateError
  | fileNotFound
  | pysenError
deriving DecidableEq, Repr

/-- Field `Workspace._file_runtimes`. -/
structure WorkspaceState where
  file_runtimes : List (String × FileRuntimeM)
deriving Repr

/-- Method `Workspace.create_file_runtime`. The `construct` argument stands for
the effectful `FileRuntime(uri, path)` constructor (which performs the
upward project-root resolution and manifest load); it is consulted only
in the creation branch. The returned triple is `(returned runtime,
resulting registry state, whether construction — and hence project-root
resolution — was attempted)`. -/
def create_file_runtime (ws : WorkspaceState) (_uri path : String)
    (construct : Except CreateError FileRuntimeM) :
    Option FileRuntimeM × WorkspaceState × Bool :=
  match dictGet ws.file_runtimes path with
  | some r => (some r, ws, false)
  | none =>
    if should_create_runtime path then
      match construct with
      | .ok r => (some r, ⟨dictSet ws.file_runtimes path r⟩, true)
      | .error _ => (none, ws, true)
    else (none, ws, false)

/-! ### Statements of claims that the code refutes -/

/-- Claim C1 as stated, specialised to one cached range `r`: under the
guard conditions, the boundary test is on the PRE-shift value of
`r.start.line` — invalidate when that value equals the edit's end line
and `r.start.character` is at most the edit's end character, and shift
`r.start.character` by the last-line character count when the pre-shift
value equals the edit's end line but the character is beyond the edit's
end character. -/
def c1_claim (p : EditParams) (r : MRange) : Prop :=
  posLt r.stop p.updated_range.start = false →
  r.start.line ≥ p.updated_range.stop.line →
  ((r.start.line = p.updated_range.stop.line ∧
      r.start.character ≤ p.updated_range.stop.character →
      (update_logic p r).1 = false) ∧
   (r.start.line = p.updated_range.stop.line ∧
      r.start.character > p.updated_range.stop.character →
      update_logic p r =
        (true, ⟨⟨r.start.line + p.num_updated_lines,
                 r.start.character + p.num_add_characters_last_line⟩,
                ⟨r.stop.line + p.num_updated_lines, r.stop.character⟩⟩)))

/-- A file cache shaped like one `_convert_reports` produces for a "lint"
run over two findings: the first finding has no diff, so its diagnostic
(range object 0) has no quick-fix action; the second has a diff, so its
diagnostic (range object 1) is shared with the action's related
diagnostics, and the action's replacement edit owns range object 2. -/
def c2Cache : FileCache :=
  { store := [⟨⟨5, 0⟩, ⟨5, 3⟩⟩, ⟨⟨7, 0⟩, ⟨7, 2⟩⟩, ⟨⟨7, 0⟩, ⟨7, 2⟩⟩]
    diagnostics := [("lint", [0, 1])]
    code_actions := [("lint", [{ edit := some [[2]], diagnostics := some [1] }])] }

/-! ## Theorems -/

/-! ### Helper lemmas -/

theorem foldl_if_append_eq_filterMap {α β : Type} (q : α → Bool) (g : α → β) :
    ∀ (L : List α) (acc : List β),
      L.foldl (fun acc l => if q l then acc ++ [g l] else acc) acc =
        acc ++ L.filterMap (fun l => if q l then some (g l) else none) := by
  intro L
  induction L with
  | nil => simp
  | cons x xs ih =>
    intro acc
    by_cases h : q x <;> simp [h, ih]

theorem diff_line_kept_eq (l : List Char) :
    (if startsWithChar '-' l then none
     else if startsWithChar '+' l || startsWithChar ' ' l then some (l.drop 1)
     else none) =
      (if startsWithChar '+' l || startsWithChar ' ' l then some (l.drop 1)
       else none) := by
  cases l with
  | nil => simp [startsWithChar]
  | cons c t =>
    by_cases h : c = '-'
    · subst h; simp [startsWithChar]
    · simp [startsWithChar, h]

/-! ### C3 — diagnostic severity -/

/-- C3, counterexample: a finding that carries a diff (a tool-applied
auto-fix) does NOT get severity Warning from `create_diagnostic` — the
severity is the hard-coded `DiagnosticSeverity.Error`. -/
theorem c3_counterexample :
    ¬ (create_diagnostic ⟨"f.py", some 1, some 1, some 1, some "m", some "-x\n"⟩
        "default" none "black(pysen)").severity = DiagnosticSeverity.warning := by
  decide

/-- C3 (amended): every diagnostic built by `create_diagnostic` has
severity Error, whether or not the finding carries a diff. -/
theorem c3_severity_always_error (d : PysenDiagnostic) (default_message : String)
    (code : Option String) (source : String) :
    (create_diagnostic d default_message code source).severity =
      DiagnosticSeverity.error := rfl

/-! ### C4 — all-absent positions -/

/-- C4, counterexample: a finding with `startLine`, `startColumn` and
`endLine` all absent but whose diff contains a deletion line yields the
range `(0,0)-(1,0)`, not `(0,0)-(0,0)`: the result does depend on the
finding's other fields. -/
theorem c4_counterexample :
    get_diagnostic_range ⟨"f.py", none, none, none, none, some "-"⟩ ≠
      (⟨⟨0, 0⟩, ⟨0, 0⟩⟩ : MRange) := by
  decide

/-- C4 (amended): for a finding whose `startLine`, `startColumn` and
`endLine` are all absent AND whose diff is absent or contains no line
starting with `-`, `get_diagnostic_range` returns `(0,0)-(0,0)`. -/
theorem c4_range_defaults (fp : String) (msg : Option String) (diff : Option String)
    (h : has_deletion (diff.getD "") = false) :
    get_diagnostic_range ⟨fp, none, none, none, msg, diff⟩ =
      (⟨⟨0, 0⟩, ⟨0, 0⟩⟩ : MRange) := by
  cases diff with
  | none => rfl
  | some t =>
    simp only [Option.getD_some] at h
    simp [get_diagnostic_range, pyOrInt, h]

/-- Witness for C4: the hypotheses hold and the conclusion follows at a
concrete finding carrying a message and a pure-insertion diff. -/
theorem c4_range_defaults_witness :
    has_deletion ((some "+x\n").getD "") = false ∧
    get_diagnostic_range ⟨"f.py", none, none, none, some "hello", some "+x\n"⟩ =
      (⟨⟨0, 0⟩, ⟨0, 0⟩⟩ : MRange) :=
  ⟨by decide, c4_range_defaults "f.py" (some "hello") (some "+x\n") (by decide)⟩

/-! ### C5 — message fallback -/

/-- C5, counterexample: a finding whose message field is present but
empty does NOT keep its message — Python `or` treats `""` as absent, so
the default message is used. -/
theorem c5_counterexample :
    ¬ (create_diagnostic ⟨"f.py", none, none, none, some "", none⟩
        "default" none "src").message = "" := by
  decide

/-- C5 (amended): a present non-empty message is kept verbatim, for any
diff and any default; the default message is used when the message is
absent or the empty string. -/
theorem c5_message_fallback (fp : String) (sl el sc : Option Int)
    (diff : Option String) (dm : String) (c : Option String) (s : String) :
    (∀ m : String, m ≠ "" →
        (create_diagnostic ⟨fp, sl, el, sc, some m, diff⟩ dm c s).message = m) ∧
    (create_diagnostic ⟨fp, sl, el, sc, none, diff⟩ dm c s).message = dm ∧
    (create_diagnostic ⟨fp, sl, el, sc, some "", diff⟩ dm c s).message = dm := by
  refine ⟨fun m hm => ?_, rfl, by simp [create_diagnostic, pyOrStr]⟩
  simp [create_diagnostic, pyOrStr, hm]

/-- Witness for C5: the given message `"hello"` is kept regardless of a
deletion diff (the specification's own example). -/
theorem c5_message_fallback_witness :
    (create_diagnostic ⟨"f.py", none, none, none, some "hello", some "-\n"⟩
      "default" none "src").message = "hello" :=
  (c5_message_fallback "f.py" none none none (some "-\n") "default" none "src").1
    "hello" (by decide)

/-! ### C6 — deletion diff extends the end line by one -/

/-- C6: two findings identical in all fields except that the first
carries a diff with a deletion line and the second carries no such diff
(either no diff at all or one without deletion lines) produce ranges
whose end lines differ by exactly one. -/
theorem c6_deletion_extends_end_line (fp : String) (sl el sc : Option Int)
    (msg : Option String) (d1 : String) (d2 : Option String)
    (h1 : has_deletion d1 = true) (h2 : has_deletion (d2.getD "") = false) :
    (get_diagnostic_range ⟨fp, sl, el, sc, msg, some d1⟩).stop.line =
      (get_diagnostic_range ⟨fp, sl, el, sc, msg, d2⟩).stop.line + 1 := by
  cases d2 with
  | none => simp [get_diagnostic_range, h1]
  | some t =>
    simp only [Option.getD_some] at h2
    simp [get_diagnostic_range, h1, h2]

/-- Witness for C6 at a concrete pair of findings. -/
theorem c6_deletion_extends_end_line_witness :
    has_deletion "-x" = true ∧
    (get_diagnostic_range ⟨"f.py", some 10, some 10, some 1, some "m", some "-x"⟩).stop.line =
      (get_diagnostic_range ⟨"f.py", some 10, some 10, some 1, some "m", none⟩).stop.line + 1 :=
  ⟨by decide,
   c6_deletion_extends_end_line "f.py" (some 10) (some 10) (some 1) (some "m")
     "-x" none (by decide) (by decide)⟩

/-! ### C7 — diff translation -/

/-- C7: the diff translator splits the diff into physical lines keeping
the terminators, keeps in order each `+`- or space-marked line with the
marker stripped, drops `-` lines, and concatenates; on the input
`"-aaa\n bbb  \n+ccc\n+ddd\n eee\n-fff"` it yields exactly
`"bbb  \nccc\nddd\neee\n"`. -/
theorem c7_diff_translation :
    (∀ diff : List Char, new_text_of diff = spec_new_text diff) ∧
    String.mk (new_text_of ("-aaa\n bbb  \n+ccc\n+ddd\n eee\n-fff").toList) =
      "bbb  \nccc\nddd\neee\n" := by
  constructor
  · intro diff
    unfold new_text_of spec_new_text
    rw [foldl_if_append_eq_filterMap
      (fun l => startsWithChar '+' l || startsWithChar ' ' l) (fun l => l.drop 1)]
    simp only [List.nil_append]
    congr 1
    exact List.filterMap_congr fun l _ => (diff_line_kept_eq l).symm
  · decide

/-! ### C1 — the remapper's boundary test -/

/-- C1, counterexample: delete line 0 from character 3 through line 1
character 2 (replacement text empty, so the net line delta is `-1` and
the last-line character count is `0`), and take the cached range
`(1,1)-(1,5)`. Its pre-shift start line `1` equals the edit's end line
and its start character `1` is at most the edit's end character `2`, so
the claim demands invalidation — but `update_logic` compares the
POST-shift start line (`0`) with the edit's end line, keeps the range and
only shifts its lines. -/
theorem c1_counterexample :
    ¬ c1_claim (mkEditParams ⟨⟨0, 3⟩, ⟨1, 2⟩⟩ "") ⟨⟨1, 1⟩, ⟨1, 5⟩⟩ := by
  unfold c1_claim
  decide

/-- C1 (amended): the boundary test uses the POST-shift start line. For a
cached range `r` with `¬(r.end < editedRange.start)` and
`r.start.line ≥ editedRange.end.line`, after shifting both lines by the
net delta: if the shifted start line equals `editedRange.end.line` and
`r.start.character ≤ editedRange.end.character` the range is invalidated
(its lines still shifted in place); if the shifted start line equals
`editedRange.end.line` but the character is greater, the start character
is additionally shifted by the last-line character count; otherwise only
the lines are shifted and the range is kept. -/
theorem c1_boundary_uses_shifted_line (p : EditParams) (r : MRange)
    (h1 : posLt r.stop p.updated_range.start = false)
    (h2 : r.start.line ≥ p.updated_range.stop.line) :
    (r.start.line + p.num_updated_lines = p.updated_range.stop.line ∧
        r.start.character ≤ p.updated_range.stop.character →
        update_logic p r =
          (false, ⟨⟨r.start.line + p.num_updated_lines, r.start.character⟩,
                   ⟨r.stop.line + p.num_updated_lines, r.stop.character⟩⟩)) ∧
    (r.start.line + p.num_updated_lines = p.updated_range.stop.line ∧
        r.start.character > p.updated_range.stop.character →
        update_logic p r =
          (true, ⟨⟨r.start.line + p.num_updated_lines,
                   r.start.character + p.num_add_characters_last_line⟩,
                  ⟨r.stop.line + p.num_updated_lines, r.stop.character⟩⟩)) ∧
    (r.start.line + p.num_updated_lines ≠ p.updated_range.stop.line →
        update_logic p r =
          (true, ⟨⟨r.start.line + p.num_updated_lines, r.start.character⟩,
                  ⟨r.stop.line + p.num_updated_lines, r.stop.character⟩⟩)) := by
  refine ⟨fun h => ?_, fun h => ?_, fun h => ?_⟩ <;>
    simp only [update_logic, h1, Bool.false_eq_true, if_false, ge_iff_le, h2, if_true]
  · rw [if_pos h.1, if_pos h.2]
  · rw [if_pos h.1, if_neg (by omega)]
  · rw [if_neg h]

/-- Witness for C1 (amended): a same-line edit replacing characters 1–3
of line 1 with `"xy"` (net line delta 0, last-line count 2) shifts the
start character of the cached range `(1,5)-(1,9)` by 2. -/
theorem c1_boundary_uses_shifted_line_witness :
    update_logic (mkEditParams ⟨⟨1, 1⟩, ⟨1, 3⟩⟩ "xy") ⟨⟨1, 5⟩, ⟨1, 9⟩⟩ =
      (true, ⟨⟨1, 7⟩, ⟨1, 9⟩⟩) := by
  have h := (c1_boundary_uses_shifted_line (mkEditParams ⟨⟨1, 1⟩, ⟨1, 3⟩⟩ "xy")
    ⟨⟨1, 5⟩, ⟨1, 9⟩⟩ (by decide) (by decide)).2.1 (by decide)
  simpa using h

/-! ### C2 — which cached ranges the remapping pass visits -/

theorem processRids_getElem?_of_not_mem (p : EditParams) :
    ∀ (rids : List Nat) (st : List MRange × Bool) (rid : Nat), rid ∉ rids →
      (processRids p st rids).1[rid]? = st.1[rid]? := by
  intro rids
  induction rids with
  | nil => intro st rid _; rfl
  | cons x xs ih =>
    intro st rid hmem
    have hx : x ≠ rid := fun h => hmem (h ▸ List.mem_cons_self x xs)
    have hxs : rid ∉ xs := fun h => hmem (List.mem_cons_of_mem x h)
    unfold processRids at ih ⊢
    rw [List.foldl_cons]
    by_cases hk : st.2
    · rw [ih _ rid hxs]
      simp [hk, List.getElem?_set_ne hx]
    · rw [ih _ rid hxs]
      simp [hk]

theorem processAction_getElem?_of_not_mem (p : EditParams) (store : List MRange)
    (a : HeapAction) (rid : Nat) (h : rid ∉ actionRids a) :
    (processAction p store a).1[rid]? = store[rid]? := by
  unfold actionRids at h
  rw [List.mem_append] at h
  push_neg at h
  unfold processAction
  cases he : a.edit with
  | none => rfl
  | some changes =>
    have h1 : rid ∉ changes.flatten := by have := h.1; rw [he] at this; exact this
    cases hd : a.diagnostics with
    | none => exact processRids_getElem?_of_not_mem p _ _ _ h1
    | some ds =>
      have h2 : rid ∉ ds := by have := h.2; rw [hd] at this; exact this
      rw [processRids_getElem?_of_not_mem p ds _ rid h2]
      exact processRids_getElem?_of_not_mem p _ _ _ h1

theorem remapActions_getElem?_of_not_mem (p : EditParams) :
    ∀ (actions : List HeapAction) (st2 : List MRange × List HeapAction) (rid : Nat),
      (∀ a ∈ actions, rid ∉ actionRids a) →
      (actions.foldl (remapActionsStep p) st2).1[rid]? = st2.1[rid]? := by
  intro actions
  induction actions with
  | nil => intro st2 rid _; rfl
  | cons a as ih =>
    intro st2 rid hmem
    rw [List.foldl_cons, ih _ rid fun x hx => hmem x (List.mem_cons_of_mem a hx)]
    unfold remapActionsStep
    exact processAction_getElem?_of_not_mem p st2.1 a rid
      (hmem a (List.mem_cons_self a as))

theorem remapCommands_getElem?_of_not_mem (p : EditParams) :
    ∀ (entries : List (String × List HeapAction))
      (st : List MRange × List (String × List HeapAction)) (rid : Nat),
      (∀ e ∈ entries, ∀ a ∈ e.2, rid ∉ actionRids a) →
      (entries.foldl (remapCommandStep p) st).1[rid]? = st.1[rid]? := by
  intro entries
  induction entries with
  | nil => intro st rid _; rfl
  | cons e es ih =>
    intro st rid hmem
    rw [List.foldl_cons, ih _ rid fun x hx => hmem x (List.mem_cons_of_mem e hx)]
    unfold remapCommandStep
    exact remapActions_getElem?_of_not_mem p e.2 (st.1, []) rid
      (hmem e (List.mem_cons_self e es))

/-- C2, counterexample: on `c2Cache`, range object 0 is cached (it is the
range of the first diagnostic of the "lint" partition), the edit inserts
one line at the top of the file, and the adjust rule maps `(5,0)-(5,3)`
to `(6,0)-(6,3)` keeping it — yet after the pass the cached range is
unchanged, because its finding had no diff and hence no quick-fix action,
and the pass walks only the actions. -/
theorem c2_counterexample :
    dictGet c2Cache.diagnostics "lint" = some [0, 1] ∧
    (update_diagnostics_range (mkEditParams ⟨⟨0, 0⟩, ⟨0, 0⟩⟩ "\n") c2Cache).store[0]? =
      some ⟨⟨5, 0⟩, ⟨5, 3⟩⟩ ∧
    update_logic (mkEditParams ⟨⟨0, 0⟩, ⟨0, 0⟩⟩ "\n") ⟨⟨5, 0⟩, ⟨5, 3⟩⟩ =
      (true, ⟨⟨6, 0⟩, ⟨6, 3⟩⟩) := by
  decide

/-- C2 (amended): the remapping pass walks only the cached quick-fix
actions. It never modifies the diagnostics dictionary (no diagnostic is
ever dropped); any cached range object not referenced by some action —
in particular the range of a diagnostic whose finding had no diff — is
left unchanged; and a range object shared between an action's related
diagnostics and the diagnostics list is adjusted in place (on `c2Cache`,
range object 1 moves with the edit while the action survives). -/
theorem c2_remap_scope :
    (∀ (p : EditParams) (cache : FileCache),
        (update_diagnostics_range p cache).diagnostics = cache.diagnostics) ∧
    (∀ (p : EditParams) (cache : FileCache) (rid : Nat),
        (∀ e ∈ cache.code_actions, ∀ a ∈ e.2, rid ∉ actionRids a) →
        (update_diagnostics_range p cache).store[rid]? = cache.store[rid]?) ∧
    ((update_diagnostics_range (mkEditParams ⟨⟨0, 0⟩, ⟨0, 0⟩⟩ "\n") c2Cache).store[1]? =
        some ⟨⟨8, 0⟩, ⟨8, 2⟩⟩ ∧
      (update_diagnostics_range (mkEditParams ⟨⟨0, 0⟩, ⟨0, 0⟩⟩ "\n") c2Cache).code_actions =
        [("lint", [{ edit := some [[2]], diagnostics := some [1] }])]) := by
  refine ⟨fun p cache => rfl, fun p cache rid h => ?_, by decide⟩
  unfold update_diagnostics_range
  exact remapCommands_getElem?_of_not_mem p cache.code_actions (cache.store, []) rid h

/-- Witness for C2 (amended): on `c2Cache`, whose single action
references only range objects 1 and 2, object 0 is untouched by the
pass. -/
theorem c2_remap_scope_witness :
    (∀ e ∈ c2Cache.code_actions, ∀ a ∈ e.2, 0 ∉ actionRids a) ∧
    (update_diagnostics_range (mkEditParams ⟨⟨0, 0⟩, ⟨0, 0⟩⟩ "\n") c2Cache).store[0]? =
      c2Cache.store[0]? :=
  ⟨by decide,
   c2_remap_scope.2.1 (mkEditParams ⟨⟨0, 0⟩, ⟨0, 0⟩⟩ "\n") c2Cache 0 (by decide)⟩

/-! ### C8 — action queries and range overlap -/

theorem posLe_iff (a b : Pos) :
    posLe a b = true ↔ a.line < b.line ∨ (a.line = b.line ∧ a.character ≤ b.character) := by
  simp [posLe, Bool.or_eq_true, Bool.and_eq_true, decide_eq_true_eq, beq_iff_eq]

theorem posLt_iff (a b : Pos) :
    posLt a b = true ↔ a.line < b.line ∨ (a.line = b.line ∧ a.character < b.character) := by
  simp [posLt, Bool.or_eq_true, Bool.and_eq_true, decide_eq_true_eq, beq_iff_eq]

theorem queryStep_foldl_eq_filter (tr : MRange) :
    ∀ (l : List CodeActionM) (acc : List CodeActionM),
      l.foldl (queryStep tr) acc =
        acc ++ l.filter (fun a => (a.diagnostics.getD []).any fun d => has_overlap d.range tr) := by
  intro l
  induction l with
  | nil => simp
  | cons x xs ih =>
    intro acc
    rw [List.foldl_cons, ih]
    cases hx : x.diagnostics with
    | none => simp [queryStep, hx, List.filter_cons]
    | some ds =>
      by_cases he : ds.isEmpty
      · have hds : ds = [] := List.isEmpty_iff.mp he
        simp [queryStep, hx, hds, List.filter_cons]
      · by_cases ho : ds.any fun d => has_overlap d.range tr
        · simp [queryStep, hx, he, ho, List.filter_cons]
        · simp [queryStep, hx, he, ho, List.filter_cons]

/-- C8: with no selection, `query_code_actions` returns all cached
actions; with a selection it returns exactly the cached actions having at
least one related diagnostic whose range overlaps the selection; overlap
is `max(starts) ≤ min(ends)` in the lexicographic position order, so
every range with `start ≤ end` overlaps itself and a zero-width selection
overlaps any stored range containing its point, boundaries included. -/
theorem c8_query_actions :
    (∀ cas : List (String × List CodeActionM),
        query_code_actions cas none = iter_code_actions cas) ∧
    (∀ (cas : List (String × List CodeActionM)) (tr : MRange),
        query_code_actions cas (some tr) =
          (iter_code_actions cas).filter
            (fun a => (a.diagnostics.getD []).any fun d => has_overlap d.range tr)) ∧
    (∀ r : MRange, posLe r.start r.stop = true → has_overlap r r = true) ∧
    (∀ (pt : Pos) (r : MRange), posLe r.start pt = true → posLe pt r.stop = true →
        has_overlap ⟨pt, pt⟩ r = true) := by
  refine ⟨fun cas => rfl, fun cas tr => ?_, fun r h => ?_, fun pt r h1 h2 => ?_⟩
  · show (iter_code_actions cas).foldl (queryStep tr) [] = _
    rw [queryStep_foldl_eq_filter tr (iter_code_actions cas) []]
    exact List.nil_append _
  · have hx : posLt r.start r.start = false := by
      rw [Bool.eq_false_iff]
      intro hc
      rcases (posLt_iff r.start r.start).mp hc with h' | h' <;> omega
    unfold has_overlap posMax posMin
    rw [hx]
    simpa using h
  · have hmax : posMax pt r.start = pt := by
      unfold posMax
      rcases hb : posLt pt r.start with _ | _
      · rfl
      · exfalso
        rcases (posLt_iff pt r.start).mp hb with h' | h' <;>
          rcases (posLe_iff r.start pt).mp h1 with h'' | h'' <;> omega
    have hmin : posMin pt r.stop = pt := by
      unfold posMin
      rcases hb : posLt r.stop pt with _ | _
      · rfl
      · exfalso
        rcases (posLt_iff r.stop pt).mp hb with h' | h' <;>
          rcases (posLe_iff pt r.stop).mp h2 with h'' | h'' <;> omega
    show posLe (posMax pt r.start) (posMin pt r.stop) = true
    rw [hmax, hmin, posLe_iff]
    omega

/-- Witness for C8: the zero-width selection at `(15,0)` (a bare cursor)
overlaps the stored range `(10,10)-(20,0)`, and that stored range
overlaps itself. -/
theorem c8_query_actions_witness :
    posLe (⟨10, 10⟩ : Pos) ⟨15, 0⟩ = true ∧
    posLe (⟨15, 0⟩ : Pos) ⟨20, 0⟩ = true ∧
    has_overlap ⟨⟨15, 0⟩, ⟨15, 0⟩⟩ ⟨⟨10, 10⟩, ⟨20, 0⟩⟩ = true ∧
    has_overlap ⟨⟨10, 10⟩, ⟨20, 0⟩⟩ ⟨⟨10, 10⟩, ⟨20, 0⟩⟩ = true :=
  ⟨by decide, by decide,
   c8_query_actions.2.2.2 ⟨15, 0⟩ ⟨⟨10, 10⟩, ⟨20, 0⟩⟩ (by decide) (by decide),
   c8_query_actions.2.2.1 ⟨⟨10, 10⟩, ⟨20, 0⟩⟩ (by decide)⟩

/-! ### C9 — a rerun replaces only its own partition -/

theorem find?_map_replace {α : Type} (k : String) (v : α) :
    ∀ m : List (String × α), m.any (fun e => e.1 == k) = true →
      ((m.map fun e => if e.1 == k then (k, v) else e).find? fun e => e.1 == k) =
        some (k, v) := by
  intro m
  induction m with
  | nil => intro h; simp at h
  | cons e t ih =>
    intro h
    by_cases he : (e.1 == k) = true
    · rw [List.map_cons, if_pos he, List.find?_cons]
      simp
    · have he0 : (e.1 == k) = false := by simpa using he
      rw [List.map_cons, if_neg he, List.find?_cons]
      simp only [he0]
      refine ih ?_
      rw [List.any_cons] at h
      simpa [he0] using h

theorem find?_map_replace_ne {α : Type} (k k' : String) (v : α) (hk : k' ≠ k) :
    ∀ m : List (String × α),
      ((m.map fun e => if e.1 == k then (k, v) else e).find? fun e => e.1 == k') =
        m.find? fun e => e.1 == k' := by
  intro m
  induction m with
  | nil => rfl
  | cons e t ih =>
    by_cases he : (e.1 == k) = true
    · have he' : e.1 = k := by simpa [beq_iff_eq] using he
      have hp1 : (k == k') = false := by
        rw [beq_eq_false_iff_ne]
        exact Ne.symm hk
      have hp2 : (e.1 == k') = false := by
        rw [he', beq_eq_false_iff_ne]
        exact Ne.symm hk
      rw [List.map_cons, if_pos he, List.find?_cons, List.find?_cons]
      simp only [hp1, hp2]
      exact ih
    · rw [List.map_cons, if_neg he, List.find?_cons, List.find?_cons]
      by_cases hp : (e.1 == k') = true
      · simp [hp]
      · have hp0 : (e.1 == k') = false := by simpa using hp
        simp only [hp0]
        exact ih

theorem dictGet_dictSet_self {α : Type} (m : List (String × α)) (k : String) (v : α) :
    dictGet (dictSet m k v) k = some v := by
  unfold dictGet dictSet
  by_cases h : (m.any fun e => e.1 == k) = true
  · rw [if_pos h, find?_map_replace k v m h]
    rfl
  · rw [if_neg h, List.find?_append]
    have h0 : (m.find? fun e => e.1 == k) = none := by
      rw [List.find?_eq_none]
      intro x hx hpx
      exact h (List.any_eq_true.mpr ⟨x, hx, hpx⟩)
    rw [h0]
    simp

theorem dictGet_dictSet_ne {α : Type} (m : List (String × α)) (k k' : String) (v : α)
    (hk : k' ≠ k) : dictGet (dictSet m k v) k' = dictGet m k' := by
  unfold dictGet dictSet
  by_cases h : (m.any fun e => e.1 == k) = true
  · rw [if_pos h, find?_map_replace_ne k k' v hk m]
  · rw [if_neg h, List.find?_append]
    have h1 : ([((k, v) : String × α)].find? fun e => e.1 == k') = none := by
      simp [beq_eq_false_iff_ne, Ne.symm hk]
    rw [h1]
    simp

/-- C9: a rerun of `command` stores the freshly converted diagnostics and
actions under `command` and leaves every other command's partitions (both
dictionaries) unchanged. -/
theorem c9_rerun_replaces_partition (st : RuntimeCache) (command : String)
    (get_uri : String → String) (get_version : String → Option Int)
    (reporters : List ReporterM) :
    (∀ other : String, other ≠ command →
        dictGet (update_diagnostics_cache st command get_uri get_version
            reporters).diagnostics other = dictGet st.diagnostics other ∧
        dictGet (update_diagnostics_cache st command get_uri get_version
            reporters).code_actions other = dictGet st.code_actions other) ∧
    dictGet (update_diagnostics_cache st command get_uri get_version
        reporters).diagnostics command =
      some (convert_reports get_uri get_version reporters).1 ∧
    dictGet (update_diagnostics_cache st command get_uri get_version
        reporters).code_actions command =
      some (convert_reports get_uri get_version reporters).2 := by
  refine ⟨fun other ho => ⟨?_, ?_⟩, ?_, ?_⟩
  · exact dictGet_dictSet_ne st.diagnostics command other _ ho
  · exact dictGet_dictSet_ne st.code_actions command other _ ho
  · exact dictGet_dictSet_self st.diagnostics command _
  · exact dictGet_dictSet_self st.code_actions command _

/-- Witness for C9: rerunning "lint" on a cache holding only a "format"
partition leaves the "format" partitions untouched. -/
theorem c9_rerun_replaces_partition_witness :
    dictGet (update_diagnostics_cache ⟨[("format", [])], [("format", [])]⟩ "lint"
        (fun s => s) (fun _ => none) []).diagnostics "format" =
      dictGet (RuntimeCache.mk [("format", [])] [("format", [])]).diagnostics "format" ∧
    dictGet (update_diagnostics_cache ⟨[("format", [])], [("format", [])]⟩ "lint"
        (fun s => s) (fun _ => none) []).code_actions "format" =
      dictGet (RuntimeCache.mk [("format", [])] [("format", [])]).code_actions "format" :=
  (c9_rerun_replaces_partition ⟨[("format", [])], [("format", [])]⟩ "lint"
    (fun s => s) (fun _ => none) []).1 "format" (by decide)

/-! ### C10 — registry ignores non-Python paths -/

/-- C10: if the resolved path's suffix is neither `.py` nor `.pyc` and
the registry holds runtimes only for paths with those suffixes (the
invariant this very function maintains, since it alone stores runtimes),
then `create_file_runtime` returns `None`, leaves the registry unchanged
and never attempts `FileRuntime` construction (hence no project-root
resolution), so such a path never acquires a cached runtime through this
call. -/
theorem c10_non_python_suffix (ws : WorkspaceState) (uri path : String)
    (construct : Except CreateError FileRuntimeM)
    (hpy : path_suffix path ≠ ".py") (hpyc : path_suffix path ≠ ".pyc")
    (hinv : ∀ e ∈ ws.file_runtimes, should_create_runtime e.1 = true) :
    create_file_runtime ws uri path construct = (none, ws, false) := by
  have hs : should_create_runtime path = false := by
    unfold should_create_runtime
    simp [hpy, hpyc]
  have hget : dictGet ws.file_runtimes path = none := by
    unfold dictGet
    cases hff : ws.file_runtimes.find? fun e => e.1 == path with
    | none => rfl
    | some e =>
      exfalso
      have hmem := List.mem_of_find?_eq_some hff
      have hpe := List.find?_some hff
      have hexp : should_create_runtime e.1 = true := hinv e hmem
      simp only [beq_iff_eq] at hpe
      rw [hpe, hs] at hexp
      exact Bool.false_ne_true hexp
  unfold create_file_runtime
  rw [hget]
  simp [hs]

/-- Witness for C10: a `.txt` document is ignored by a registry that
caches one runtime for a `.py` path. -/
theorem c10_non_python_suffix_witness :
    path_suffix "/w/notes.txt" ≠ ".py" ∧
    create_file_runtime ⟨[("/w/a.py", ⟨"file:///w/a.py", "/w/a.py"⟩)]⟩
        "file:///w/notes.txt" "/w/notes.txt"
        (Except.ok ⟨"file:///w/notes.txt", "/w/notes.txt"⟩) =
      (none, ⟨[("/w/a.py", ⟨"file:///w/a.py", "/w/a.py"⟩)]⟩, false) :=
  ⟨by decide,
   c10_non_python_suffix ⟨[("/w/a.py", ⟨"file:///w/a.py", "/w/a.py"⟩)]⟩
     "file:///w/notes.txt" "/w/notes.txt"
     (Except.ok ⟨"file:///w/notes.txt", "/w/notes.txt"⟩)
     (by decide) (by decide) (by decide)⟩

end PysenLs
